import Mathlib

/-!
Verification of the CryptoInsightAI retrieval core.

This file gives a shallow embedding, in Lean 4, of the retrieval core of the
repository: the in-memory vector store (`core/vector_store.py`), the context
assembler and deterministic fallback embedder (`core/rag_pipeline.py`), the
prompt composer (`core/dynamic_prompting.py`) and the remote embedding wrapper
(`core/embedding.py`).  Python floats are idealised as real numbers; Python
module-level mutable state (the `_store` list) is threaded explicitly as a
state value; Python exceptions are modelled with `Except`.  Each definition is
translated directly from the source file it names.
-/

namespace CryptoInsight

/-! ## Data model: metadata, store records, search results -/

/-- Metadata attached to a stored document chunk.  `core/rag_pipeline.py`
builds `{"id": doc_id, "source": source, "content": text}`; every field may be
the Python value `None`, modelled by `Option.none`.  Extra caller-supplied
fields are not needed by any claim. -/
structure Metadata where
  source : Option String
  id : Option String
  content : Option String
deriving DecidableEq

/-- One entry of the module-level `_store` list of `core/vector_store.py`:
`{"embedding": embedding, "metadata": metadata}`. -/
structure StoreRecord where
  embedding : List ℝ
  metadata : Metadata

/-- The module-level `_store` list, threaded explicitly. -/
abbrev StoreState := List StoreRecord

/-- `core/vector_store.py`, `clear()`: `_store.clear()`. -/
def clear (_ : StoreState) : StoreState := []

/-- `core/vector_store.py`, `add_document_embedding`: appends
`{"embedding": embedding, "metadata": metadata}` to `_store`. -/
def add_document_embedding (embedding : List ℝ) (metadata : Metadata)
    (st : StoreState) : StoreState :=
  st ++ [⟨embedding, metadata⟩]

/-- An element of the `scored` list built by `search_similar`:
`{"score": float(score), "metadata": item["metadata"]}`. -/
structure SearchResult where
  score : ℝ
  metadata : Metadata

/-! ## Cosine similarity (`core/vector_store.py`, `_cosine_similarity`) -/

/-- The local variable `dot` of `_cosine_similarity`:
`sum(a * b for a, b in zip(vec_a, vec_b))`.  Like Python `zip`, `zipWith`
truncates to the shorter list. -/
def pyDot (a b : List ℝ) : ℝ := (List.zipWith (fun x y => x * y) a b).sum

/-- The argument of `math.sqrt` in `_cosine_similarity`:
`sum(a * a for a in vec)`. -/
def pySumSq (v : List ℝ) : ℝ := (v.map fun x => x * x).sum

/-- The local variables `norm_a` / `norm_b` of `_cosine_similarity`:
`math.sqrt(sum(a * a for a in vec))`. -/
noncomputable def pyNorm (v : List ℝ) : ℝ := Real.sqrt (pySumSq v)

/-- `core/vector_store.py`, `_cosine_similarity`.  The first guard is
`if not vec_a or not vec_b or len(vec_a) != len(vec_b): return 0.0`; the
second is `if norm_a == 0 or norm_b == 0: return 0.0`; otherwise the function
returns `dot / (norm_a * norm_b)`.  The Lean function is total: every branch
returns a value, mirroring the fact that the Python code raises no
exception. -/
noncomputable def _cosine_similarity (vec_a vec_b : List ℝ) : ℝ :=
  if vec_a.isEmpty ∨ vec_b.isEmpty ∨ vec_a.length ≠ vec_b.length then 0
  else if pyNorm vec_a = 0 ∨ pyNorm vec_b = 0 then 0
  else pyDot vec_a vec_b / (pyNorm vec_a * pyNorm vec_b)

/-! ## Search (`core/vector_store.py`, `search_similar`) -/

/-- Descending-score comparison used to model
`scored.sort(key=lambda x: x["score"], reverse=True)`: `x` may come before
`y` exactly when the score of `x` is at least the score of `y`. -/
def descBy (x y : SearchResult) : Prop := y.score ≤ x.score

noncomputable instance : DecidableRel descBy := fun x y => Real.decidableLE y.score x.score

instance : IsTotal SearchResult descBy := ⟨fun a b => le_total b.score a.score⟩

instance : IsTrans SearchResult descBy := ⟨fun _ _ _ h1 h2 => le_trans h2 h1⟩

/-- The `scored` list built by the loop in `search_similar`: one
`{"score": ..., "metadata": ...}` entry per store item, in store order. -/
noncomputable def scoredResults (query_embedding : List ℝ) (st : StoreState) :
    List SearchResult :=
  st.map fun item => ⟨_cosine_similarity query_embedding item.embedding, item.metadata⟩

/-- `core/vector_store.py`, `search_similar`: scores every stored record,
sorts the scored list in place with Python `list.sort(key=..., reverse=True)`
(a stable descending sort, modelled by `List.insertionSort` with `descBy`,
which computes the same list as any stable sort), and returns the slice
`scored[: max(top_k, 0)]`.  The function reads but never writes `_store`, so
the state component is returned unchanged. -/
noncomputable def search_similar (query_embedding : List ℝ) (top_k : ℤ)
    (st : StoreState) : List SearchResult × StoreState :=
  ((List.insertionSort descBy (scoredResults query_embedding st)).take
      (max top_k 0).toNat,
    st)

/-! ## Basic lemmas about the similarity primitives -/

lemma pySumSq_nonneg (v : List ℝ) : 0 ≤ pySumSq v := by
  apply List.sum_nonneg
  intro x hx
  simp only [List.mem_map] at hx
  obtain ⟨y, _, rfl⟩ := hx
  exact mul_self_nonneg y

lemma pyNorm_nonneg (v : List ℝ) : 0 ≤ pyNorm v := Real.sqrt_nonneg _

lemma pyNorm_nil : pyNorm [] = 0 := by
  simp [pyNorm, pySumSq]

lemma pyDot_self (a : List ℝ) : pyDot a a = pySumSq a := by
  induction a with
  | nil => simp [pyDot, pySumSq]
  | cons x t ih =>
    have h1 : pyDot (x :: t) (x :: t) = x * x + pyDot t t := by simp [pyDot]
    have h2 : pySumSq (x :: t) = x * x + pySumSq t := by simp [pySumSq]
    rw [h1, h2, ih]

/-- Cauchy-Schwarz for the list dot product, proved by induction; no length
hypothesis is needed since `zipWith` truncates and squares are nonnegative. -/
lemma pyDot_sq_le : ∀ a b : List ℝ, pyDot a b ^ 2 ≤ pySumSq a * pySumSq b := by
  intro a
  induction a with
  | nil => intro b; simp [pyDot, pySumSq]
  | cons x t ih =>
    intro b
    cases b with
    | nil => simp [pyDot, pySumSq]
    | cons y u =>
      have hD := ih u
      have hA : 0 ≤ pySumSq t := pySumSq_nonneg t
      have hB : 0 ≤ pySumSq u := pySumSq_nonneg u
      have hdot : pyDot (x :: t) (y :: u) = x * y + pyDot t u := by
        simp [pyDot]
      have hsa : pySumSq (x :: t) = x * x + pySumSq t := by
        simp [pySumSq]
      have hsb : pySumSq (y :: u) = y * y + pySumSq u := by
        simp [pySumSq]
      rw [hdot, hsa, hsb]
      rcases eq_or_lt_of_le hA with hA0 | hApos
      · have hD0 : pyDot t u = 0 := by
          nlinarith [sq_nonneg (pyDot t u)]
        rw [hD0, ← hA0]
        nlinarith [mul_nonneg (mul_self_nonneg x) hB]
      · nlinarith [hD, sq_nonneg (x * pyDot t u - pySumSq t * y),
          mul_nonneg (add_nonneg (mul_self_nonneg x) hA) (sub_nonneg.2 hD)]

/-! ## Claims about the similarity primitives and search -/

/-- C4: for every pair of vectors, if the lengths differ or either norm is
zero (which includes the empty vector, whose norm is zero), the cosine
similarity is exactly 0, and otherwise it equals
`dot(a,b) / (norm(a) * norm(b))`.  The embedding is a total function, so no
exception can be raised on any input. -/
theorem cosine_total_spec (a b : List ℝ) :
    (a.length ≠ b.length → _cosine_similarity a b = 0)
  ∧ (pyNorm a = 0 ∨ pyNorm b = 0 → _cosine_similarity a b = 0)
  ∧ (a.length = b.length → pyNorm a ≠ 0 → pyNorm b ≠ 0 →
      _cosine_similarity a b = pyDot a b / (pyNorm a * pyNorm b)) := by
  refine ⟨fun h => ?_, fun h => ?_, fun hlen ha hb => ?_⟩
  · unfold _cosine_similarity
    rw [if_pos (Or.inr (Or.inr h))]
  · unfold _cosine_similarity
    by_cases h1 : (a.isEmpty ∨ b.isEmpty ∨ a.length ≠ b.length)
    · rw [if_pos h1]
    · rw [if_neg h1, if_pos h]
  · have hae : a.isEmpty = false := by
      cases a with
      | nil => exact absurd pyNorm_nil ha
      | cons x t => rfl
    have hbe : b.isEmpty = false := by
      cases b with
      | nil => exact absurd pyNorm_nil hb
      | cons x t => rfl
    unfold _cosine_similarity
    rw [if_neg (by simp [hae, hbe, hlen]), if_neg (by simp [ha, hb])]

/-- Witness for C4: at concrete inputs, mismatched lengths score 0, a
zero-norm vector scores 0, and a regular pair takes the quotient form. -/
theorem cosine_total_spec_witness :
    _cosine_similarity [1] [1, 2] = 0 ∧ _cosine_similarity [0] [5] = 0 ∧
      _cosine_similarity [1] [1] = pyDot [1] [1] / (pyNorm [1] * pyNorm [1]) :=
  ⟨(cosine_total_spec [1] [1, 2]).1 (by simp),
   (cosine_total_spec [0] [5]).2.1 (Or.inl (by simp [pyNorm, pySumSq])),
   (cosine_total_spec [1] [1]).2.2 rfl (by simp [pyNorm, pySumSq])
     (by simp [pyNorm, pySumSq])⟩

/-- C8: every cosine similarity value lies in the interval from -1 to 1
(proved for all vector pairs, equal-length ones in particular), and the
similarity of a vector having a nonzero component with itself is exactly 1
in the real-number idealisation of Python floats. -/
theorem cosine_bounds_spec (a b : List ℝ) :
    (-1 ≤ _cosine_similarity a b ∧ _cosine_similarity a b ≤ 1)
  ∧ ((∃ x ∈ a, x ≠ 0) → _cosine_similarity a a = 1) := by
  constructor
  · unfold _cosine_similarity
    split
    · norm_num
    · split
      · norm_num
      · next h2 =>
        push_neg at h2
        obtain ⟨ha, hb⟩ := h2
        have hA := pySumSq_nonneg a
        have hB := pySumSq_nonneg b
        have hapos : 0 < pyNorm a := lt_of_le_of_ne (pyNorm_nonneg a) (Ne.symm ha)
        have hbpos : 0 < pyNorm b := lt_of_le_of_ne (pyNorm_nonneg b) (Ne.symm hb)
        have hM : 0 < pyNorm a * pyNorm b := mul_pos hapos hbpos
        have hsq : (pyNorm a * pyNorm b) ^ 2 = pySumSq a * pySumSq b := by
          rw [mul_pow, pyNorm, pyNorm, Real.sq_sqrt hA, Real.sq_sqrt hB]
        have habs : |pyDot a b| ≤ pyNorm a * pyNorm b := by
          have h1 : pyDot a b ^ 2 ≤ (pyNorm a * pyNorm b) ^ 2 := by
            rw [hsq]; exact pyDot_sq_le a b
          have h2 := Real.sqrt_le_sqrt h1
          rwa [Real.sqrt_sq_eq_abs, Real.sqrt_sq_eq_abs, abs_of_pos hM] at h2
        obtain ⟨hlo, hhi⟩ := abs_le.mp habs
        constructor
        · rw [le_div_iff₀ hM]
          linarith
        · rw [div_le_one hM]
          exact hhi
  · rintro ⟨x, hx, hxne⟩
    have hxx : 0 < x * x := mul_self_pos.mpr hxne
    have hmem : x * x ∈ a.map fun y => y * y := List.mem_map.mpr ⟨x, hx, rfl⟩
    have hle : x * x ≤ pySumSq a := by
      apply List.single_le_sum _ _ hmem
      intro z hz
      simp only [List.mem_map] at hz
      obtain ⟨w, _, rfl⟩ := hz
      exact mul_self_nonneg w
    have hpos : 0 < pySumSq a := lt_of_lt_of_le hxx hle
    have hnorm : 0 < pyNorm a := Real.sqrt_pos.mpr hpos
    have hae : a.isEmpty = false := by
      cases a with
      | nil => simp at hx
      | cons y t => rfl
    unfold _cosine_similarity
    rw [if_neg (by simp [hae]), if_neg (by simp [hnorm.ne']), pyDot_self, pyNorm,
      Real.mul_self_sqrt (pySumSq_nonneg a), div_self hpos.ne']

/-- Witness for C8: concrete bounds, and self-similarity 1 for the vector
with single component 1. -/
theorem cosine_bounds_spec_witness :
    (-1 ≤ _cosine_similarity [1] [1] ∧ _cosine_similarity [1] [1] ≤ 1)
  ∧ _cosine_similarity [1] [1] = 1 :=
  ⟨(cosine_bounds_spec [1] [1]).1,
   (cosine_bounds_spec [1] [1]).2 ⟨1, by simp, one_ne_zero⟩⟩

/-- C1: the search result is sorted descending by score, equals the first
`max(topK, 0)` entries of a descending stable sort of the scored records (a
permutation of all scored records, hence it consists of the `topK`
highest-scoring records in descending order); nonpositive `topK` yields the
empty sequence, `topK` at least the store size yields all records ordered by
score, and the empty store yields the empty sequence. -/
theorem search_topk_spec (q : List ℝ) (k : ℤ) (st : StoreState) :
    List.Sorted descBy (search_similar q k st).1
  ∧ (search_similar q k st).1 =
      (List.insertionSort descBy (scoredResults q st)).take (max k 0).toNat
  ∧ (List.insertionSort descBy (scoredResults q st)).Perm (scoredResults q st)
  ∧ (search_similar q k st).1.length = min (max k 0).toNat st.length
  ∧ (k ≤ 0 → (search_similar q k st).1 = [])
  ∧ ((st.length : ℤ) ≤ k → ((search_similar q k st).1).Perm (scoredResults q st))
  ∧ (st = [] → (search_similar q k st).1 = []) := by
  have hperm := List.perm_insertionSort descBy (scoredResults q st)
  have hsorted := List.sorted_insertionSort descBy (scoredResults q st)
  refine ⟨?_, rfl, hperm, ?_, ?_, ?_, ?_⟩
  · exact List.Pairwise.sublist (List.take_sublist _ _) hsorted
  · show ((List.insertionSort descBy (scoredResults q st)).take _).length = _
    rw [List.length_take, hperm.length_eq]
    simp [scoredResults]
  · intro hk
    have hmax : max k 0 = 0 := max_eq_right hk
    show (List.insertionSort descBy (scoredResults q st)).take (max k 0).toNat = []
    rw [hmax]
    rfl
  · intro hk
    have h0 : (0 : ℤ) ≤ k := le_trans (Int.ofNat_nonneg _) hk
    have hlen : (scoredResults q st).length = st.length := List.length_map _ _
    have htoNat := Int.toNat_of_nonneg h0
    have hle : (List.insertionSort descBy (scoredResults q st)).length ≤
        (max k 0).toNat := by
      rw [hperm.length_eq, hlen]
      omega
    show ((List.insertionSort descBy (scoredResults q st)).take
      (max k 0).toNat).Perm (scoredResults q st)
    rw [List.take_of_length_le hle]
    exact hperm
  · intro hst
    subst hst
    show (List.insertionSort descBy (scoredResults q [])).take (max k 0).toNat = []
    simp [scoredResults]

/-- A single-record concrete store used by witnesses. -/
noncomputable def demoStore : StoreState :=
  [⟨[1], ⟨some "kb/bitcoin.md", some "btc", some "Bitcoin"⟩⟩]

/-- Witness for C1: at concrete inputs, negative `topK` yields the empty
result, `topK` larger than the store yields a permutation of all scored
records, and searching the empty store yields the empty result. -/
theorem search_topk_spec_witness :
    (search_similar [1] (-1) demoStore).1 = []
  ∧ ((search_similar [1] 5 demoStore).1).Perm (scoredResults [1] demoStore)
  ∧ (search_similar [1] 0 ([] : StoreState)).1 = [] :=
  ⟨(search_topk_spec [1] (-1) demoStore).2.2.2.2.1 (by decide),
   (search_topk_spec [1] 5 demoStore).2.2.2.2.2.1 (by norm_num [demoStore]),
   (search_topk_spec [1] 0 []).2.2.2.2.2.2 rfl⟩

/-- One step of tie-breaking stability: filtering an ordered insertion at a
fixed score is a cons or a no-op, because the insertion point of `a` lies
before every element whose score equals the score of `a`. -/
lemma filter_orderedInsert_score (s : ℝ) (a : SearchResult)
    (l : List SearchResult) :
    (List.orderedInsert descBy a l).filter (fun r => decide (r.score = s)) =
      if a.score = s then a :: l.filter (fun r => decide (r.score = s))
      else l.filter (fun r => decide (r.score = s)) := by
  induction l with
  | nil =>
    by_cases has : a.score = s <;> simp [List.orderedInsert, has]
  | cons b t ih =>
    rw [List.orderedInsert]
    by_cases hab : descBy a b
    · rw [if_pos hab]
      by_cases has : a.score = s <;> simp [List.filter_cons, has]
    · rw [if_neg hab]
      by_cases has : a.score = s
      · have hbs : ¬(b.score = s) := by
          intro hb
          exact hab (le_of_eq (hb.trans has.symm))
        simp [List.filter_cons, hbs, ih, has]
      · simp [List.filter_cons, ih, has]

/-- Stability of the descending sort: the records of any fixed score appear
in the sorted list exactly as they appear in the input list. -/
lemma filter_insertionSort_score (s : ℝ) (l : List SearchResult) :
    (List.insertionSort descBy l).filter (fun r => decide (r.score = s)) =
      l.filter (fun r => decide (r.score = s)) := by
  induction l with
  | nil => rfl
  | cons a t ih =>
    rw [List.insertionSort, filter_orderedInsert_score, ih]
    by_cases has : a.score = s <;> simp [List.filter_cons, has]

/-- C3: the descending sort in `search_similar` is stable.  For every score
value, the sub-sequence of result records having that score is a leading
segment of the same-score records of the scored list in insertion order; in
particular any two equal-score records that both appear in the result appear
in their relative insertion order. -/
theorem search_tie_stable (q : List ℝ) (k : ℤ) (st : StoreState) (s : ℝ) :
    ((search_similar q k st).1.filter (fun r => decide (r.score = s))) <+:
      ((scoredResults q st).filter (fun r => decide (r.score = s))) := by
  rw [← filter_insertionSort_score s (scoredResults q st)]
  refine ⟨((List.insertionSort descBy (scoredResults q st)).drop
    (max k 0).toNat).filter (fun r => decide (r.score = s)), ?_⟩
  show ((List.insertionSort descBy (scoredResults q st)).take
      (max k 0).toNat).filter _ ++ _ = _
  rw [← List.filter_append, List.take_append_drop]

/-- C10: search is read-only on the store: it returns the store state
unchanged, and therefore a second identical search returns the identical
result sequence. -/
theorem search_frame_spec (q : List ℝ) (k : ℤ) (st : StoreState) :
    (search_similar q k st).2 = st
  ∧ (search_similar q k ((search_similar q k st).2)).1 =
      (search_similar q k st).1 :=
  ⟨rfl, rfl⟩

/-! ## Context assembler (`core/rag_pipeline.py`) -/

/-- Python `m.get(key) or default` on an optional string: the Python values
`None` and `""` are falsy and select the default. -/
def pyOrS : Option String → String → String
  | none, d => d
  | some s, d => if s = "" then d else s

/-- The dedup key `(m.get("source"), m.get("id"))` of `_format_source_list`,
built from the raw metadata values: absent values stay absent instead of
becoming display placeholders. -/
def dedupKey (m : Metadata) : Option String × Option String := (m.source, m.id)

/-- The citation label of the key first seen at 0-based position `i`:
the string `[i+1]`. -/
def citeLabel (i : ℕ) : String := "[" ++ toString (i + 1) ++ "]"

/-- Loop state of `_format_source_list`: the lists `seen`, `lines`,
`idx_map` and the counter `i`. -/
structure SourceAcc where
  seen : List (Option String × Option String)
  lines : List String
  idx_map : List ((Option String × Option String) × String)
  i : ℕ

/-- One iteration of the `for r in results` loop of `_format_source_list`:
a key already in `seen` contributes nothing, a new key appends a Sources
line and a label mapping and bumps the counter. -/
def sourceStep (acc : SourceAcc) (r : SearchResult) : SourceAcc :=
  let key := dedupKey r.metadata
  if key ∈ acc.seen then acc
  else
    let label := "[" ++ toString acc.i ++ "]"
    let src := pyOrS r.metadata.source "unknown source"
    let did := pyOrS r.metadata.id "-"
    { seen := acc.seen ++ [key]
      lines := acc.lines ++ [label ++ " " ++ src ++ " (id: " ++ did ++ ")"]
      idx_map := acc.idx_map ++ [(key, label)]
      i := acc.i + 1 }

/-- `core/rag_pipeline.py`, `_format_source_list`: returns the Sources block
(the lines joined with a newline) and the map from dedup key to citation
label.  The Python dict `idx_map` is modelled as an association list queried
with `List.lookup`. -/
def _format_source_list (results : List SearchResult) :
    String × List ((Option String × Option String) × String) :=
  let acc := results.foldl sourceStep ⟨[], [], [], 1⟩
  (String.intercalate "\n" acc.lines, acc.idx_map)

/-- Left-pad a numeral string with zeros to four characters. -/
def padZero4 (s : String) : String :=
  String.mk (List.replicate (4 - s.length) '0') ++ s

/-- Models the Python format `f"{score:.4f}"` on the real idealisation of a
float: the value rounded to four decimal places, printed with exactly four
fractional digits.  (CPython rounds the underlying binary double half to
even; on real numbers we use ordinary rounding, a difference no claim
depends on.) -/
noncomputable def fmt4 (x : ℝ) : String :=
  let n : ℤ := round (x * 10000)
  let sign := if n < 0 then "-" else ""
  let a := n.natAbs
  sign ++ toString (a / 10000) ++ "." ++ padZero4 (toString (a % 10000))

/-- The tag `idx_map.get(key, "[?]")` used for one rendered result. -/
def resultTag (idx_map : List ((Option String × Option String) × String))
    (r : SearchResult) : String :=
  (idx_map.lookup (dedupKey r.metadata)).getD "[?]"

/-- The `parts` list of `build_context_from_results`: every result is
rendered, without dedup, as its citation tag and score header, a newline and
the trimmed content (`(m.get("content") or "").strip()`).  In the typed
embedding every score is a real number, so the `isinstance` test of the
source is always true and the header always carries the score suffix. -/
noncomputable def bodyParts
    (idx_map : List ((Option String × Option String) × String))
    (results : List SearchResult) : List String :=
  results.map fun r =>
    resultTag idx_map r ++ " Score=" ++ fmt4 r.score ++ "\n" ++
      (pyOrS r.metadata.content "").trim

/-- `core/rag_pipeline.py`, `build_context_from_results`: renders every
result under its citation tag, joins the parts with the divider, substitutes
the placeholder body for an empty parts list, and wraps body and Sources
block (`sources_block or "(none)"`) in the fixed format. -/
noncomputable def build_context_from_results (results : List SearchResult) :
    String :=
  let sb := _format_source_list results
  let parts := bodyParts sb.2 results
  let chunks := if parts.isEmpty then "(no relevant context found)"
    else String.intercalate "\n\n---\n\n" parts
  "Retrieved Context (top matches):\n\n" ++ chunks ++ "\n\nSources:\n" ++
    (if sb.1 = "" then "(none)" else sb.1)

/-! ## First-seen keys and the loop invariant of `_format_source_list` -/

/-- One step of collecting dedup keys in order of first appearance. -/
def keyStep (acc : List (Option String × Option String)) (r : SearchResult) :
    List (Option String × Option String) :=
  if dedupKey r.metadata ∈ acc then acc else acc ++ [dedupKey r.metadata]

/-- The dedup keys of the results in order of first appearance. -/
def firstSeenKeys (results : List SearchResult) :
    List (Option String × Option String) :=
  results.foldl keyStep []

/-- The Sources line of the key first seen at 0-based position `i`. -/
def keyLine (i : ℕ) (k : Option String × Option String) : String :=
  citeLabel i ++ " " ++ pyOrS k.1 "unknown source" ++ " (id: " ++
    pyOrS k.2 "-" ++ ")"

/-- The Sources lines of a first-seen key list, labelled from position
`i`. -/
def linesFor (i : ℕ) : List (Option String × Option String) → List String
  | [] => []
  | k :: ks => keyLine i k :: linesFor (i + 1) ks

/-- The label map of a first-seen key list, labelled from position `i`. -/
def idxFor (i : ℕ) :
    List (Option String × Option String) →
      List ((Option String × Option String) × String)
  | [] => []
  | k :: ks => (k, citeLabel i) :: idxFor (i + 1) ks

lemma linesFor_append (i : ℕ) (ks : List (Option String × Option String))
    (k : Option String × Option String) :
    linesFor i (ks ++ [k]) = linesFor i ks ++ [keyLine (i + ks.length) k] := by
  induction ks generalizing i with
  | nil => simp [linesFor]
  | cons a t ih =>
    have h2 : i + (a :: t).length = (i + 1) + t.length := by
      rw [List.length_cons]
      omega
    calc linesFor i ((a :: t) ++ [k])
        = keyLine i a :: linesFor (i + 1) (t ++ [k]) := rfl
      _ = keyLine i a :: (linesFor (i + 1) t ++ [keyLine ((i + 1) + t.length) k]) := by
          rw [ih]
      _ = linesFor i (a :: t) ++ [keyLine (i + (a :: t).length) k] := by
          rw [h2]
          rfl

lemma idxFor_append (i : ℕ) (ks : List (Option String × Option String))
    (k : Option String × Option String) :
    idxFor i (ks ++ [k]) = idxFor i ks ++ [(k, citeLabel (i + ks.length))] := by
  induction ks generalizing i with
  | nil => simp [idxFor]
  | cons a t ih =>
    have h2 : i + (a :: t).length = (i + 1) + t.length := by
      rw [List.length_cons]
      omega
    calc idxFor i ((a :: t) ++ [k])
        = (a, citeLabel i) :: idxFor (i + 1) (t ++ [k]) := rfl
      _ = (a, citeLabel i) :: (idxFor (i + 1) t ++ [(k, citeLabel ((i + 1) + t.length))]) := by
          rw [ih]
      _ = idxFor i (a :: t) ++ [(k, citeLabel (i + (a :: t).length))] := by
          rw [h2]
          rfl

/-- Invariant of the `_format_source_list` loop: starting from the canonical
state for a seen list `ks`, the loop ends in the canonical state for the
extended first-seen key list. -/
lemma foldl_sourceStep_eq (results : List SearchResult) :
    ∀ ks : List (Option String × Option String),
      results.foldl sourceStep ⟨ks, linesFor 0 ks, idxFor 0 ks, ks.length + 1⟩ =
        ⟨results.foldl keyStep ks, linesFor 0 (results.foldl keyStep ks),
          idxFor 0 (results.foldl keyStep ks),
          (results.foldl keyStep ks).length + 1⟩ := by
  induction results with
  | nil => intro ks; rfl
  | cons r rest ih =>
    intro ks
    rw [List.foldl_cons, List.foldl_cons]
    by_cases hk : dedupKey r.metadata ∈ ks
    · rw [show sourceStep ⟨ks, linesFor 0 ks, idxFor 0 ks, ks.length + 1⟩ r =
          ⟨ks, linesFor 0 ks, idxFor 0 ks, ks.length + 1⟩ by
            simp [sourceStep, hk],
        show keyStep ks r = ks by simp [keyStep, hk]]
      exact ih ks
    · have hstep : sourceStep ⟨ks, linesFor 0 ks, idxFor 0 ks, ks.length + 1⟩ r =
          ⟨ks ++ [dedupKey r.metadata],
            linesFor 0 (ks ++ [dedupKey r.metadata]),
            idxFor 0 (ks ++ [dedupKey r.metadata]),
            (ks ++ [dedupKey r.metadata]).length + 1⟩ := by
        simp [sourceStep, hk, linesFor_append, idxFor_append, keyLine,
          citeLabel, dedupKey, Nat.zero_add]
        exact hk
      rw [hstep, show keyStep ks r = ks ++ [dedupKey r.metadata] by
        simp [keyStep, hk]]
      exact ih (ks ++ [dedupKey r.metadata])

lemma format_source_list_eq (results : List SearchResult) :
    _format_source_list results =
      (String.intercalate "\n" (linesFor 0 (firstSeenKeys results)),
        idxFor 0 (firstSeenKeys results)) := by
  unfold _format_source_list firstSeenKeys
  rw [show (⟨[], [], [], 1⟩ : SourceAcc) =
    ⟨[], linesFor 0 [], idxFor 0 [], List.length [] + 1⟩ from rfl]
  rw [foldl_sourceStep_eq]

lemma mem_foldl_keyStep_of_mem (results : List SearchResult)
    (k : Option String × Option String) :
    ∀ ks, k ∈ ks → k ∈ results.foldl keyStep ks := by
  induction results with
  | nil => intro ks h; exact h
  | cons r rest ih =>
    intro ks h
    rw [List.foldl_cons]
    apply ih
    unfold keyStep
    split
    · exact h
    · exact List.mem_append_left _ h

lemma mem_foldl_keyStep (results : List SearchResult) (r : SearchResult)
    (hr : r ∈ results) :
    ∀ ks, dedupKey r.metadata ∈ results.foldl keyStep ks := by
  induction results with
  | nil => simp at hr
  | cons a rest ih =>
    intro ks
    rw [List.foldl_cons]
    rcases List.mem_cons.mp hr with h | h
    · subst h
      apply mem_foldl_keyStep_of_mem
      unfold keyStep
      split
      · assumption
      · exact List.mem_append_right _ (List.mem_singleton.mpr rfl)
    · exact ih h _

lemma mem_firstSeenKeys_of_mem (results : List SearchResult)
    (r : SearchResult) (hr : r ∈ results) :
    dedupKey r.metadata ∈ firstSeenKeys results :=
  mem_foldl_keyStep results r hr []

lemma lookup_idxFor (ks : List (Option String × Option String))
    (k : Option String × Option String) (h : k ∈ ks) :
    ∀ i, (idxFor i ks).lookup k = some (citeLabel (i + ks.indexOf k)) := by
  induction ks with
  | nil => simp at h
  | cons a t ih =>
    intro i
    by_cases hk : k = a
    · subst hk
      have hidx : List.indexOf k (k :: t) = 0 := by
        rw [List.indexOf_cons]
        simp
      rw [hidx]
      simp [idxFor, List.lookup]
    · have hmem : k ∈ t := by
        rcases List.mem_cons.mp h with h1 | h1
        · exact absurd h1 hk
        · exact h1
      have hbeq : (k == a) = false := beq_false_of_ne hk
      have hbeq2 : (a == k) = false := beq_false_of_ne (Ne.symm hk)
      have hidx : List.indexOf k (a :: t) = List.indexOf k t + 1 := by
        rw [List.indexOf_cons, hbeq2]
        rfl
      simp only [idxFor, List.lookup, hbeq]
      rw [ih hmem (i + 1), hidx]
      congr 2
      omega

/-! ## Claims about the context assembler -/

/-- C5: citation labels are assigned sequentially, in order of first
appearance of each dedup key built from the raw `(source, id)` metadata
values: the label map and the Sources block are exactly the canonically
labelled forms of the first-seen key list (one Sources line per distinct key,
so a repeated pair is listed exactly once); any two results sharing a dedup
key receive the same tag; every result looks up the label of the first
occurrence of its key; and the body renders every result (no dedup), each
under its own tag header. -/
theorem context_citation_spec (results : List SearchResult) :
    (_format_source_list results).2 = idxFor 0 (firstSeenKeys results)
  ∧ (_format_source_list results).1 =
      String.intercalate "\n" (linesFor 0 (firstSeenKeys results))
  ∧ (∀ r1 ∈ results, ∀ r2 ∈ results,
      dedupKey r1.metadata = dedupKey r2.metadata →
        resultTag (_format_source_list results).2 r1 =
          resultTag (_format_source_list results).2 r2)
  ∧ (∀ r ∈ results,
      ((_format_source_list results).2).lookup (dedupKey r.metadata) =
        some (citeLabel
          (List.indexOf (dedupKey r.metadata) (firstSeenKeys results))))
  ∧ bodyParts (_format_source_list results).2 results =
      results.map (fun r =>
        resultTag (_format_source_list results).2 r ++ " Score=" ++
          fmt4 r.score ++ "\n" ++ (pyOrS r.metadata.content "").trim)
  ∧ build_context_from_results results =
      "Retrieved Context (top matches):\n\n" ++
        (if results.isEmpty then "(no relevant context found)"
          else String.intercalate "\n\n---\n\n"
            (bodyParts (_format_source_list results).2 results)) ++
      "\n\nSources:\n" ++
        (if (_format_source_list results).1 = "" then "(none)"
          else (_format_source_list results).1) := by
  refine ⟨?_, ?_, ?_, ?_, rfl, ?_⟩
  · rw [format_source_list_eq]
  · rw [format_source_list_eq]
  · intro r1 _ r2 _ hkey
    unfold resultTag
    rw [hkey]
  · intro r hr
    rw [format_source_list_eq]
    simpa using lookup_idxFor (firstSeenKeys results) (dedupKey r.metadata)
      (mem_firstSeenKeys_of_mem results r hr) 0
  · unfold build_context_from_results
    have hempty : (bodyParts (_format_source_list results).2 results).isEmpty =
        results.isEmpty := by
      unfold bodyParts
      cases results <;> rfl
    dsimp only
    rw [hempty]

/-- A concrete result record used by the C5 witness. -/
noncomputable def demoResultA : SearchResult :=
  ⟨0, ⟨some "kb/a.md", some "x", some "alpha"⟩⟩

/-- A second concrete result record sharing the dedup key of
`demoResultA`. -/
noncomputable def demoResultB : SearchResult :=
  ⟨0, ⟨some "kb/a.md", some "x", some "beta"⟩⟩

/-- Witness for C5: on a two-result list sharing one `(source, id)` pair,
both results receive the same citation tag, and the shared key looks up the
label of its first appearance. -/
theorem context_citation_spec_witness :
    resultTag (_format_source_list [demoResultA, demoResultB]).2 demoResultA =
      resultTag (_format_source_list [demoResultA, demoResultB]).2 demoResultB
  ∧ ((_format_source_list [demoResultA, demoResultB]).2).lookup
      (dedupKey demoResultA.metadata) =
      some (citeLabel (List.indexOf (dedupKey demoResultA.metadata)
        (firstSeenKeys [demoResultA, demoResultB]))) :=
  ⟨(context_citation_spec [demoResultA, demoResultB]).2.2.1 demoResultA
      (by simp) demoResultB (by simp) rfl,
    (context_citation_spec [demoResultA, demoResultB]).2.2.2.1 demoResultA
      (by simp)⟩

/-- C9: on the empty result sequence the context assembler produces the
literal placeholder body, the `(none)` Sources block, and the exact
wrapper. -/
theorem context_empty_spec :
    build_context_from_results [] =
      "Retrieved Context (top matches):\n\n(no relevant context found)\n\nSources:\n(none)" := by
  rfl

/-! ## Prompt composer (`core/dynamic_prompting.py`) -/

/-- One conversation turn `{'user': ..., 'assistant': ...}`. -/
structure Turn where
  user : String
  assistant : String

/-- Python truthiness of an optional string parameter: the value `None` and
the empty string are falsy. -/
def pyTruthyS : Option String → Bool
  | none => false
  | some s => s != ""

/-- The `history_str` accumulation of `build_dynamic_prompt`: each turn is
rendered as a `User:` line and an `Assistant:` line and concatenated. -/
def renderHistory (history : List Turn) : String :=
  history.foldl (fun acc turn =>
    acc ++ "User: " ++ turn.user ++ "\nAssistant: " ++ turn.assistant ++ "\n") ""

/-- The system persona string of `build_dynamic_prompt`. -/
def system_instructions : String :=
  "You are CryptoInsightAI, an expert assistant in cryptocurrencies, blockchains, and digital assets. Provide concise, factually correct answers with helpful explanations. Cite credible sources or context when relevant."

/-- `core/dynamic_prompting.py`, `build_dynamic_prompt`: accumulates
`prompt_parts` (system persona, then the optional history, context and
format sections, then the user query) and joins the parts with a double
newline.  The history section is appended only for a truthy (non-empty)
history, the context and format sections only for a truthy string, mirroring
the `if` checks of the source; a `None` history argument behaves like the
empty list.  The trailing `.strip()` on `history_str` is `String.trim`. -/
def build_dynamic_prompt (user_query : String)
    (conversation_history : List Turn) (retrieved_context : Option String)
    (output_format : Option String) : String :=
  let prompt_parts : List String := ["System: " ++ system_instructions]
  let prompt_parts := if conversation_history.isEmpty then prompt_parts
    else prompt_parts ++
      ["Conversation History:\n" ++ (renderHistory conversation_history).trim]
  let prompt_parts := if pyTruthyS retrieved_context then
      prompt_parts ++ ["Additional Context:\n" ++ retrieved_context.getD ""]
    else prompt_parts
  let prompt_parts := if pyTruthyS output_format then
      prompt_parts ++ ["Please respond in " ++ output_format.getD "" ++ " format."]
    else prompt_parts
  let prompt_parts := prompt_parts ++ ["User: " ++ user_query]
  String.intercalate "\n\n" prompt_parts

/-- C7: the composed prompt is exactly the double-newline join of the
section sequence System, Conversation History, Additional Context, format
instruction, User, in this fixed order; the System and User sections are
always present, and each optional section appears exactly when its own value
is truthy (present and non-empty), independently of the others. -/
theorem prompt_sections_spec (user_query : String)
    (conversation_history : List Turn)
    (retrieved_context output_format : Option String) :
    build_dynamic_prompt user_query conversation_history retrieved_context
        output_format =
      String.intercalate "\n\n"
        (["System: " ++ system_instructions]
          ++ (if conversation_history.isEmpty then []
              else ["Conversation History:\n" ++
                (renderHistory conversation_history).trim])
          ++ (if pyTruthyS retrieved_context then
              ["Additional Context:\n" ++ retrieved_context.getD ""] else [])
          ++ (if pyTruthyS output_format then
              ["Please respond in " ++ output_format.getD "" ++ " format."]
              else [])
          ++ ["User: " ++ user_query]) := by
  unfold build_dynamic_prompt
  rcases conversation_history with _ | ⟨t, ts⟩ <;>
    cases hc : pyTruthyS retrieved_context <;>
    cases ho : pyTruthyS output_format <;>
    simp [hc, ho]

/-! ## SHA-256 (models the Python standard library `hashlib.sha256`)

The repository calls `hashlib.sha256(text.encode("utf-8")).hexdigest()`.
The Python standard library is outside the repository, so the algorithm
below is a direct model of FIPS 180-4 SHA-256 over natural numbers, with
32-bit wrap-around written as an explicit `% 2 ^ 32`.  No claim depends on
particular digest values, only on the digest being a fixed pure function of
the text. -/

/-- Right rotation of a 32-bit word. -/
def rotr32 (n x : ℕ) : ℕ := ((x >>> n) ||| (x <<< (32 - n))) % 2 ^ 32

/-- The 64 SHA-256 round constants. -/
def shaK : List ℕ :=
  [1116352408, 1899447441, 3049323471,
   3921009573, 961987163, 1508970993,
   2453635748, 2870763221, 3624381080,
   310598401, 607225278, 1426881987,
   1925078388, 2162078206, 2614888103,
   3248222580, 3835390401, 4022224774,
   264347078, 604807628, 770255983,
   1249150122, 1555081692, 1996064986,
   2554220882, 2821834349, 2952996808,
   3210313671, 3336571891, 3584528711,
   113926993, 338241895, 666307205,
   773529912, 1294757372, 1396182291,
   1695183700, 1986661051, 2177026350,
   2456956037, 2730485921, 2820302411,
   3259730800, 3345764771, 3516065817,
   3600352804, 4094571909, 275423344,
   430227734, 506948616, 659060556,
   883997877, 958139571, 1322822218,
   1537002063, 1747873779, 1955562222,
   2024104815, 2227730452, 2361852424,
   2428436474, 2756734187, 3204031479,
   3329325298]

/-- The initial SHA-256 hash state. -/
def shaH0 : List ℕ :=
  [1779033703, 3144134277, 1013904242,
   2773480762, 1359893119, 2600822924,
   528734635, 1541459225]

/-- The SHA-256 choice function; 32-bit complement written as xor with the
all-ones word. -/
def shaCh (e f g : ℕ) : ℕ := (e &&& f) ^^^ ((0xffffffff ^^^ e) &&& g)

/-- The SHA-256 majority function. -/
def shaMaj (a b c : ℕ) : ℕ := (a &&& b) ^^^ (a &&& c) ^^^ (b &&& c)

/-- The SHA-256 big sigma-0 function. -/
def shaBigSigma0 (x : ℕ) : ℕ := rotr32 2 x ^^^ rotr32 13 x ^^^ rotr32 22 x

/-- The SHA-256 big sigma-1 function. -/
def shaBigSigma1 (x : ℕ) : ℕ := rotr32 6 x ^^^ rotr32 11 x ^^^ rotr32 25 x

/-- The SHA-256 small sigma-0 function. -/
def shaSmallSigma0 (x : ℕ) : ℕ := rotr32 7 x ^^^ rotr32 18 x ^^^ (x >>> 3)

/-- The SHA-256 small sigma-1 function. -/
def shaSmallSigma1 (x : ℕ) : ℕ := rotr32 17 x ^^^ rotr32 19 x ^^^ (x >>> 10)

/-- SHA-256 padding of a byte list: append the byte 0x80, zero bytes until
the length is 56 mod 64, then the bit length as eight big-endian bytes. -/
def shaPad (msg : List ℕ) : List ℕ :=
  let len := msg.length
  let zeros := (119 - len % 64) % 64
  msg ++ [0x80] ++ List.replicate zeros 0 ++
    ((List.range 8).map fun i => ((8 * len) >>> (8 * (7 - i))) % 256)

/-- Split a byte list into 64-byte chunks. -/
def chunks64 (l : List ℕ) : List (List ℕ) :=
  if h : l = [] then [] else l.take 64 :: chunks64 (l.drop 64)
termination_by l.length
decreasing_by
  rw [List.length_drop]
  have hpos : 0 < l.length := List.length_pos.mpr h
  omega

/-- The 16 big-endian 32-bit words of one 64-byte chunk. -/
def words16 (chunk : List ℕ) : List ℕ :=
  (List.range 16).map fun i =>
    chunk.getD (4 * i) 0 * 0x1000000 + chunk.getD (4 * i + 1) 0 * 0x10000 +
      chunk.getD (4 * i + 2) 0 * 0x100 + chunk.getD (4 * i + 3) 0

/-- The SHA-256 message schedule: extend 16 words to 64. -/
def shaExtend (w16 : List ℕ) : List ℕ :=
  (List.range 48).foldl (fun w i =>
    let t := i + 16
    w ++ [(shaSmallSigma1 (w.getD (t - 2) 0) + w.getD (t - 7) 0 +
      shaSmallSigma0 (w.getD (t - 15) 0) + w.getD (t - 16) 0) % 2 ^ 32]) w16

/-- One round of the SHA-256 compression function on the eight working
registers. -/
def shaRound (w : List ℕ) (st : List ℕ) (t : ℕ) : List ℕ :=
  let a := st.getD 0 0
  let b := st.getD 1 0
  let c := st.getD 2 0
  let d := st.getD 3 0
  let e := st.getD 4 0
  let f := st.getD 5 0
  let g := st.getD 6 0
  let hh := st.getD 7 0
  let t1 := (hh + shaBigSigma1 e + shaCh e f g + shaK.getD t 0 + w.getD t 0) % 2 ^ 32
  let t2 := (shaBigSigma0 a + shaMaj a b c) % 2 ^ 32
  [(t1 + t2) % 2 ^ 32, a, b, c, (d + t1) % 2 ^ 32, e, f, g]

/-- Compress one 64-byte chunk into the running hash state. -/
def shaCompress (hs : List ℕ) (chunk : List ℕ) : List ℕ :=
  let w := shaExtend (words16 chunk)
  let st := (List.range 64).foldl (shaRound w) hs
  (List.range 8).map fun i => (hs.getD i 0 + st.getD i 0) % 2 ^ 32

/-- The eight 32-bit words of the SHA-256 digest of a byte list. -/
def shaDigestWords (msg : List ℕ) : List ℕ :=
  (chunks64 (shaPad msg)).foldl shaCompress shaH0

/-- The lowercase hex character of a value below 16. -/
def hexDigitChar (n : ℕ) : Char :=
  if n < 10 then Char.ofNat (48 + n) else Char.ofNat (87 + n)

/-- The eight lowercase hex characters of a 32-bit word, most significant
first. -/
def wordToHex (w : ℕ) : String :=
  String.mk ((List.range 8).map fun i => hexDigitChar ((w >>> (4 * (7 - i))) % 16))

/-- Models `hashlib.sha256(text.encode("utf-8")).hexdigest()`: the
64-character lowercase hex digest of the UTF-8 bytes of the text. -/
def sha256hexdigest (text : String) : String :=
  String.join
    ((shaDigestWords (text.toUTF8.toList.map fun b => b.toNat)).map wordToHex)

/-! ## Mersenne Twister (models the Python standard library `random.Random`)

The repository calls `random.Random(int(h[:8], 16))` and then
`rng.uniform(-1.0, 1.0)` 128 times.  CPython implements MT19937; the model
below follows the CPython `_randommodule.c` seeding (`init_genrand`,
`init_by_array` with the single 32-bit word key produced by a seed below
`2^32`) and generation (`genrand_uint32`, `random_random`).  State words are
32-bit; every write wraps with an explicit `% 2 ^ 32`, and the word size is
also made explicit where a word is read for tempering. -/

/-- Word `i` of the MT19937 state initialised by `init_genrand(s)`. -/
def mtSeedWord (s : ℕ) : ℕ → ℕ
  | 0 => s % 2 ^ 32
  | i + 1 =>
    let p := mtSeedWord s i
    (1812433253 * (p ^^^ (p >>> 30)) + (i + 1)) % 2 ^ 32

/-- The 624-word state array of `init_genrand(s)`. -/
def mtInitGenrand (s : ℕ) : List ℕ := (List.range 624).map (mtSeedWord s)

/-- One iteration of the first mixing loop of `init_by_array` with the
single-word key `n` (the key index stays 0, so the added key term is always
`n`); the pair carries the state array and the index `i`. -/
def ibaStep1 (n : ℕ) (acc : List ℕ × ℕ) (_ : ℕ) : List ℕ × ℕ :=
  let mt := acc.1
  let i := acc.2
  let prev := mt.getD (i - 1) 0
  let v := ((mt.getD i 0 ^^^ ((prev ^^^ (prev >>> 30)) * 1664525)) + n) % 2 ^ 32
  let mt2 := mt.set i v
  let i2 := i + 1
  if 624 ≤ i2 then (mt2.set 0 (mt2.getD 623 0), 1) else (mt2, i2)

/-- One iteration of the second mixing loop of `init_by_array`; the
subtraction of the index is 32-bit wrap-around, computed in the integers and
reduced. -/
def ibaStep2 (acc : List ℕ × ℕ) (_ : ℕ) : List ℕ × ℕ :=
  let mt := acc.1
  let i := acc.2
  let prev := mt.getD (i - 1) 0
  let v := ((((mt.getD i 0 ^^^ ((prev ^^^ (prev >>> 30)) * 1566083941)) : ℤ) -
    (i : ℤ)) % (2 ^ 32 : ℤ)).toNat
  let mt2 := mt.set i v
  let i2 := i + 1
  if 624 ≤ i2 then (mt2.set 0 (mt2.getD 623 0), 1) else (mt2, i2)

/-- MT19937 generator state: the 624-word array and the output index. -/
structure MTState where
  mt : List ℕ
  index : ℕ

/-- The MT19937 state after CPython `random.Random(n)` seeding with a
single-word key: `init_genrand(19650218)`, the two `init_by_array` mixing
loops (624 and 623 iterations, the second continuing from the index reached
by the first), then `mt[0] = 0x80000000`; the output index starts at 624 so
the first draw triggers a twist. -/
def mtFromSeed (n : ℕ) : MTState :=
  let mt := mtInitGenrand 19650218
  let p1 := (List.range 624).foldl (ibaStep1 n) (mt, 1)
  let p2 := (List.range 623).foldl ibaStep2 p1
  ⟨p2.1.set 0 0x80000000, 624⟩

/-- The twisted replacement for state word `kk`. -/
def twistWord (mt : List ℕ) (kk : ℕ) : ℕ :=
  let y := (mt.getD kk 0 &&& 0x80000000) |||
    (mt.getD ((kk + 1) % 624) 0 &&& 0x7fffffff)
  (mt.getD ((kk + 397) % 624) 0 ^^^ (y >>> 1) ^^^
    (if y % 2 = 1 then 0x9908b0df else 0)) % 2 ^ 32

/-- One full regeneration of the state array, updating the 624 words in
order, so that later words read already-updated earlier words exactly as the
in-place C loop does. -/
def twist (mt : List ℕ) : List ℕ :=
  (List.range 624).foldl (fun acc kk => acc.set kk (twistWord acc kk)) mt

/-- The MT19937 output tempering. -/
def temper (y : ℕ) : ℕ :=
  let y1 := y ^^^ (y >>> 11)
  let y2 := y1 ^^^ ((y1 <<< 7) &&& 0x9d2c5680)
  let y3 := y2 ^^^ ((y2 <<< 15) &&& 0xefc60000)
  y3 ^^^ (y3 >>> 18)

/-- One 32-bit draw (`genrand_uint32`): twist when the index reaches 624,
then temper the word at the index.  The read is of a 32-bit state word;
every write wraps, and the `% 2 ^ 32` here restates that word size at the
read. -/
def genrandStep (s : MTState) : ℕ × MTState :=
  let s2 := if 624 ≤ s.index then MTState.mk (twist s.mt) 0 else s
  (temper (s2.mt.getD s2.index 0 % 2 ^ 32), MTState.mk s2.mt (s2.index + 1))

/-- The first `n` 32-bit outputs of a generator state. -/
def genrandOutputs : MTState → ℕ → List ℕ
  | _, 0 => []
  | s, n + 1 =>
    let p := genrandStep s
    p.1 :: genrandOutputs p.2 n

/-- The 53-bit numerators of CPython `random.random()` (`genrand_res53`):
each drawn double is the numerator divided by `2^53`, where the numerator is
`a * 2^26 + b` with `a` and `b` the top 27 and 26 bits of two consecutive
32-bit draws. -/
def pyRandomNumerators (seed : ℕ) (count : ℕ) : List ℕ :=
  let outs := genrandOutputs (mtFromSeed seed) (2 * count)
  (List.range count).map fun j =>
    (outs.getD (2 * j) 0 >>> 5) * 67108864 + (outs.getD (2 * j + 1) 0 >>> 6)

/-- The value of one lowercase hex digit character. -/
def hexDigitVal (c : Char) : ℕ :=
  if c.toNat ≤ 57 then c.toNat - 48 else c.toNat - 87

/-- Python `int(s, 16)` on a lowercase hex string. -/
def hexToNat (s : String) : ℕ :=
  s.foldl (fun acc c => 16 * acc + hexDigitVal c) 0

/-- `core/rag_pipeline.py`, `_generate_embedding_with_fallback`, fallback
branch: hash the text with SHA-256, seed the generator with the first eight
hex digits (the first 32 bits of the digest) read as an unsigned integer,
and draw 128 values `rng.uniform(-1.0, 1.0)`.  CPython `uniform(a, b)`
returns `a + (b - a) * random()` and `random()` is the 53-bit numerator
divided by `2^53`. -/
noncomputable def fallbackVector (text : String) : List ℝ :=
  let h := sha256hexdigest text
  let seed := hexToNat (h.take 8)
  (pyRandomNumerators seed 128).map fun k : ℕ =>
    (-1 : ℝ) + (1 - (-1)) * ((k : ℝ) / 2 ^ 53)

/-! ## Range of the fallback embedder -/

lemma xor_lt_two_pow_32 {x y : ℕ} (hx : x < 2 ^ 32) (hy : y < 2 ^ 32) :
    x ^^^ y < 2 ^ 32 :=
  Nat.bitwise_lt hx hy

lemma shiftRight_lt_two_pow_32 {x : ℕ} (h : x < 2 ^ 32) (n : ℕ) :
    x >>> n < 2 ^ 32 := by
  rw [Nat.shiftRight_eq_div_pow]
  exact lt_of_le_of_lt (Nat.div_le_self _ _) h

lemma and_lt_two_pow_32 {m : ℕ} (x : ℕ) (hm : m < 2 ^ 32) :
    x &&& m < 2 ^ 32 :=
  lt_of_le_of_lt Nat.and_le_right hm

lemma temper_lt {y : ℕ} (hy : y < 2 ^ 32) : temper y < 2 ^ 32 := by
  unfold temper
  have h1 : y ^^^ (y >>> 11) < 2 ^ 32 :=
    xor_lt_two_pow_32 hy (shiftRight_lt_two_pow_32 hy 11)
  have h2 : (y ^^^ (y >>> 11)) ^^^ (((y ^^^ (y >>> 11)) <<< 7) &&& 0x9d2c5680) <
      2 ^ 32 :=
    xor_lt_two_pow_32 h1 (and_lt_two_pow_32 _ (by norm_num))
  have h3 := xor_lt_two_pow_32 h2 (and_lt_two_pow_32
    (((y ^^^ (y >>> 11)) ^^^ (((y ^^^ (y >>> 11)) <<< 7) &&& 0x9d2c5680)) <<< 15)
    (show 0xefc60000 < 2 ^ 32 by norm_num))
  exact xor_lt_two_pow_32 h3 (shiftRight_lt_two_pow_32 h3 18)

lemma genrandStep_fst_lt (s : MTState) : (genrandStep s).1 < 2 ^ 32 := by
  unfold genrandStep
  exact temper_lt (Nat.mod_lt _ (by norm_num))

lemma genrandOutputs_lt : ∀ (n : ℕ) (s : MTState),
    ∀ y ∈ genrandOutputs s n, y < 2 ^ 32 := by
  intro n
  induction n with
  | zero => intro s y hy; simp [genrandOutputs] at hy
  | succ m ih =>
    intro s y hy
    rw [genrandOutputs] at hy
    rcases List.mem_cons.mp hy with h | h
    · subst h
      exact genrandStep_fst_lt s
    · exact ih _ y h

lemma getD_lt_of_forall_lt {l : List ℕ} {M : ℕ} (hM : 0 < M)
    (h : ∀ y ∈ l, y < M) (i : ℕ) : l.getD i 0 < M := by
  rcases lt_or_ge i l.length with hi | hi
  · rw [List.getD_eq_getElem l 0 hi]
    exact h _ (List.getElem_mem hi)
  · rw [List.getD_eq_default l 0 hi]
    exact hM

lemma pyRandomNumerators_lt (seed count : ℕ) :
    ∀ k ∈ pyRandomNumerators seed count, k < 2 ^ 53 := by
  intro k hk
  unfold pyRandomNumerators at hk
  simp only [List.mem_map, List.mem_range] at hk
  obtain ⟨j, _, rfl⟩ := hk
  have hout := genrandOutputs_lt (2 * count) (mtFromSeed seed)
  have h1 : (genrandOutputs (mtFromSeed seed) (2 * count)).getD (2 * j) 0 <
      2 ^ 32 := getD_lt_of_forall_lt (by norm_num) hout _
  have h2 : (genrandOutputs (mtFromSeed seed) (2 * count)).getD (2 * j + 1) 0 <
      2 ^ 32 := getD_lt_of_forall_lt (by norm_num) hout _
  have ha : (genrandOutputs (mtFromSeed seed) (2 * count)).getD (2 * j) 0 >>> 5 <
      2 ^ 27 := by
    rw [Nat.shiftRight_eq_div_pow]
    omega
  have hb : (genrandOutputs (mtFromSeed seed) (2 * count)).getD (2 * j + 1) 0 >>> 6 <
      2 ^ 26 := by
    rw [Nat.shiftRight_eq_div_pow]
    omega
  omega

lemma pyRandomNumerators_length (seed count : ℕ) :
    (pyRandomNumerators seed count).length = count := by
  unfold pyRandomNumerators
  dsimp only
  rw [List.length_map, List.length_range]

lemma fallbackVector_mem_Icc (text : String) :
    ∀ x ∈ fallbackVector text, x ∈ Set.Icc (-1 : ℝ) 1 := by
  intro x hx
  unfold fallbackVector at hx
  dsimp only at hx
  simp only [List.mem_map] at hx
  obtain ⟨k, hk, rfl⟩ := hx
  have hklt : k < 2 ^ 53 := pyRandomNumerators_lt _ _ k hk
  have h0 : (0 : ℝ) ≤ (k : ℝ) / 2 ^ 53 := by positivity
  have h1 : (k : ℝ) / 2 ^ 53 ≤ 1 := by
    rw [div_le_one (by positivity)]
    exact_mod_cast le_of_lt hklt
  constructor
  · linarith
  · linarith

/-! ## Claims about the fallback embedder -/

/-- C6: the fallback embedder is a fixed pure function of the text (two
calls with the same text give identical vectors); the vector has exactly 128
components; every component lies in the closed interval from -1 to 1; and
the vector is computed by hashing the text with SHA-256, seeding the
pseudo-random generator with the first 32 bits (eight hex digits) of the
digest read as an unsigned integer, and drawing 128 uniform values in the
interval. -/
theorem fallback_embedding_spec (text : String) :
    fallbackVector text = fallbackVector text
  ∧ (fallbackVector text).length = 128
  ∧ (∀ i : ℕ, (fallbackVector text).getD i 0 ∈ Set.Icc (-1 : ℝ) 1)
  ∧ fallbackVector text =
      (pyRandomNumerators (hexToNat ((sha256hexdigest text).take 8)) 128).map
        (fun k : ℕ => (-1 : ℝ) + (1 - (-1)) * ((k : ℝ) / 2 ^ 53)) := by
  refine ⟨rfl, ?_, ?_, rfl⟩
  · unfold fallbackVector
    dsimp only
    rw [List.length_map, pyRandomNumerators_length]
  · intro i
    rcases lt_or_ge i (fallbackVector text).length with hi | hi
    · rw [List.getD_eq_getElem _ _ hi]
      exact fallbackVector_mem_Icc text _ (List.getElem_mem hi)
    · rw [List.getD_eq_default _ _ hi]
      constructor
      · norm_num
      · norm_num

/-! ## Embedding backends (`core/embedding.py` and the query-embedding step)

The remote OpenAI call is an external collaborator; it is passed in as a
function returning `Except`, and Python exceptions are `Except.error`
values.  Both the module-level `OPENAI_API_KEY` of `core/embedding.py` and
the `os.getenv("OPENAI_API_KEY")` check of `_generate_embedding_with_fallback`
read the same environment value, passed here as one `env` parameter. -/

/-- `core/embedding.py`, `generate_embedding`: raises `ValueError` when no
key is configured (unset or empty); otherwise performs the remote call,
re-raising a remote failure as an exception; raises when the response
carries no embedding. -/
def generate_embedding (env : Option String)
    (remote : String → Except String (List ℝ)) (text : String) :
    Except String (List ℝ) :=
  if pyTruthyS env = false then
    .error "OPENAI_API_KEY not found in environment variables."
  else
    match remote text with
    | .error e => .error ("Embedding API call failed: " ++ e)
    | .ok emb =>
      if emb.isEmpty then .error "No embedding returned from OpenAI."
      else .ok emb

/-- `core/rag_pipeline.py`, `_generate_embedding_with_fallback`: when
`os.getenv("OPENAI_API_KEY")` is truthy, call
`embeddings.generate_embedding(text)` with no exception handling, so a raise
propagates to the caller; otherwise return the deterministic
pseudo-embedding. -/
noncomputable def _generate_embedding_with_fallback (env : Option String)
    (remote : String → Except String (List ℝ)) (text : String) :
    Except String (List ℝ) :=
  if pyTruthyS env then generate_embedding env remote text
  else .ok (fallbackVector text)

/-- Counterexample to C2 as stated: with a credential configured and a
failing remote call, the query-embedding step propagates the backend
failure to its caller instead of substituting the deterministic fallback. -/
theorem fallback_claim_counterexample :
    _generate_embedding_with_fallback (some "sk-test")
        (fun _ => .error "connection refused") "What is Bitcoin?" =
      .error "Embedding API call failed: connection refused" := by
  rfl

/-- C2 amended: the fallback engages exactly when no credential is
configured (`OPENAI_API_KEY` unset or empty); in that case the
query-embedding step always returns normally with the deterministic
fallback vector.  When a credential is configured the step defers to the
remote path `generate_embedding`, whose failures propagate to the caller. -/
theorem fallback_amended_spec (env : Option String)
    (remote : String → Except String (List ℝ)) (text : String) :
    (pyTruthyS env = false →
      _generate_embedding_with_fallback env remote text =
        .ok (fallbackVector text))
  ∧ (pyTruthyS env = true →
      _generate_embedding_with_fallback env remote text =
        generate_embedding env remote text) := by
  constructor
  · intro h
    unfold _generate_embedding_with_fallback
    rw [h]
    rfl
  · intro h
    unfold _generate_embedding_with_fallback
    rw [h]
    rfl

/-- Witness for the amended C2: with no credential the step returns the
fallback vector normally; with a credential it is exactly the remote
path. -/
theorem fallback_amended_spec_witness :
    _generate_embedding_with_fallback none (fun _ => .error "down") "hello" =
      .ok (fallbackVector "hello")
  ∧ _generate_embedding_with_fallback (some "sk-test")
        (fun _ => .error "down") "hello" =
      generate_embedding (some "sk-test") (fun _ => .error "down") "hello" :=
  ⟨(fallback_amended_spec none (fun _ => .error "down") "hello").1 rfl,
   (fallback_amended_spec (some "sk-test") (fun _ => .error "down") "hello").2
     (by rfl)⟩

end CryptoInsight
